import Mathlib

/-!
Verification of the core animation pipeline in `animationLogic.js`
(repository ChenQiWen/animDraw).

Modelling conventions:
* JavaScript numbers are modelled as exact rationals (`ℚ`).  All numeric
  literals of the source (`2`, `0.1`, `0.2`, `0.25`, …) are taken at their
  mathematical value.
* `Math.sqrt` is the only irrational operation of the source; it is kept
  abstract as an explicit parameter `sq : ℚ → ℚ` of the functions that use
  it (`getDistance`, `calculateSpeeds`, `processKeyframes`,
  `calculateAnimationData`).  Theorems about those functions quantify over
  every `sq`, so they hold in particular for the real square root.
* Arrays become lists; the JavaScript reference identity of array slots is
  modelled by indices into the input list (each slot is its own object, as
  produced by the capture layer which allocates a fresh point per event).
* Out-of-range index reads are modelled with `List.getD` and a default
  element; every theorem that depends on an index read carries bounds that
  keep the read in range.
* The unbound identifier `originalKeyframes` in `processKeyframes`
  (the module is strict-mode ES, so evaluating it throws a
  `ReferenceError`) is modelled by the `Except` error value.
-/

/-- A raw sample: `{time, x, y}` from the capture layer. -/
structure Point where
  time : ℚ
  x : ℚ
  y : ℚ
  deriving DecidableEq, Repr

instance : Inhabited Point := ⟨⟨0, 0, 0⟩⟩

/-- A keyframe: `{progress, point}`. -/
structure Keyframe where
  progress : ℚ
  point : Point
  deriving DecidableEq, Repr

instance : Inhabited Keyframe := ⟨⟨0, default⟩⟩

/-- A speed record `{index, speed, progress}` produced by `calculateSpeeds`. -/
structure SpeedRec where
  index : Nat
  speed : ℚ
  progress : ℚ
  deriving DecidableEq, Repr

/-- Bezier parameters `{x1, y1, x2, y2}`. -/
structure BezierParams where
  x1 : ℚ
  y1 : ℚ
  x2 : ℚ
  y2 : ℚ
  deriving DecidableEq, Repr

/-- Squared Euclidean distance, as computed by the source
(`dx*dx + dy*dy` in `filterPoints`, `pow(..,2)+pow(..,2)` in
`getDistance` before the square root). -/
def sqDist (p q : Point) : ℚ :=
  (p.x - q.x) * (p.x - q.x) + (p.y - q.y) * (p.y - q.y)

/-- `getDistance`, with the square root kept abstract as `sq`. -/
def getDistance (sq : ℚ → ℚ) (p q : Point) : ℚ :=
  sq (sqDist p q)

/-- Indexed read into a point list (`inputPoints[i]`). -/
def ptGet (l : List Point) (i : Nat) : Point :=
  l.getD i default

/-- Indexed read into a keyframe list (`keyframes[i]`). -/
def kfGet (l : List Keyframe) (i : Nat) : Keyframe :=
  l.getD i default

/-- The loop of `filterPoints`, walking the input points from index `i`
onward (the list argument is the corresponding suffix of the input), with
`lastPt` the last kept point: keep an index exactly when
the `squaredDistance >= minDistanceSquared` test passes
(`minDistance = 2`, so `minDistanceSquared = 4`). -/
def filterLoopGo (lastPt : Point) (i : Nat) : List Point → List Nat
  | [] => []
  | p :: rest =>
    if 4 ≤ sqDist p lastPt then
      i :: filterLoopGo p (i + 1) rest
    else
      filterLoopGo lastPt (i + 1) rest

/-- The indices kept by `filterPoints`: always index 0, then the loop, then
the final index force-appended when the last kept slot is not the final
slot (the source's `result[result.length-1] !== lastOriginalPoint`
reference test, rendered on slot indices). -/
def filterIndices (pts : List Point) : List Nat :=
  match pts with
  | [] => []
  | p0 :: rest =>
    let r := 0 :: filterLoopGo p0 1 rest
    if r.getLastD 0 ≠ pts.length - 1 then r ++ [pts.length - 1] else r

/-- `filterPoints`: the kept points themselves. -/
def filterPoints (pts : List Point) : List Point :=
  (filterIndices pts).map (ptGet pts)

/-- `createKeyframes`: pairs each filtered point with a time-normalized
progress; returns the keyframes and the total duration. -/
def createKeyframes (fp : List Point) : List Keyframe × ℚ :=
  if fp.length < 2 then ([], 0)
  else
    let t0 := (ptGet fp 0).time
    let totalDuration := (fp.getLastD default).time - t0
    (fp.map (fun p =>
      ⟨if 0 < totalDuration then (p.time - t0) / totalDuration else 0, p⟩),
     totalDuration)

/-- The loop of `calculateSpeeds`: `i` is the index of the segment's end
keyframe, `prev` the previous keyframe; segments with non-positive time
delta are skipped. -/
def speedsGo (sq : ℚ → ℚ) (i : Nat) (prev : Keyframe) :
    List Keyframe → List SpeedRec
  | [] => []
  | k :: rest =>
    let timeDiff := k.point.time - prev.point.time
    if timeDiff ≤ 0 then
      speedsGo sq (i + 1) k rest
    else
      ⟨i, getDistance sq k.point prev.point / timeDiff, k.progress⟩ ::
        speedsGo sq (i + 1) k rest

/-- `calculateSpeeds`: one record per consecutive keyframe pair with
positive time delta. -/
def calculateSpeeds (sq : ℚ → ℚ) (kfs : List Keyframe) : List SpeedRec :=
  match kfs with
  | [] => []
  | k0 :: rest => speedsGo sq 1 k0 rest

/-- The key of the dedup filter at the end of `extractKeySpeedPoints`:
equality of `point.time`, `point.x` and `point.y`. -/
def samePointTXY (a b : Keyframe) : Bool :=
  a.point.time == b.point.time && a.point.x == b.point.x && a.point.y == b.point.y

/-- The source's `filter((item, index, self) => index === self.findIndex ...)`
dedup: keep an element exactly when no element earlier in the list has the
same `(time, x, y)` triple.  `seen` holds the already-scanned elements. -/
def dedupTXYGo (seen : List Keyframe) : List Keyframe → List Keyframe
  | [] => []
  | k :: rest =>
    if seen.any (fun s => samePointTXY s k) then
      dedupTXYGo (k :: seen) rest
    else
      k :: dedupTXYGo (k :: seen) rest

/-- Dedup by the `(time, x, y)` triple, keeping first occurrences. -/
def dedupTXY (l : List Keyframe) : List Keyframe := dedupTXYGo [] l

/-- The dedup used by `normalizeKeyframeCount`: first occurrence per
`point.time` only. -/
def dedupTimeGo (seen : List Keyframe) : List Keyframe → List Keyframe
  | [] => []
  | k :: rest =>
    if seen.any (fun s => s.point.time == k.point.time) then
      dedupTimeGo (k :: seen) rest
    else
      k :: dedupTimeGo (k :: seen) rest

/-- Dedup by `point.time`, keeping first occurrences. -/
def dedupTime (l : List Keyframe) : List Keyframe := dedupTimeGo [] l

/-- The loop of `extractKeySpeedPoints` over speed records from index 1 on:
`lastSpeed` is the running reference speed, `prev` the record of the
previous iteration (`speeds[i-1]`).  On a relative speed change above the
`0.2` threshold (relative to `max(lastSpeed, 0.1)`), both
`keyframes[speeds[i-1].index]` and `keyframes[speeds[i].index]` are
appended and `lastSpeed` is updated to the new speed. -/
def extractGo (kfs : List Keyframe) (lastSpeed : ℚ) (prev : SpeedRec) :
    List SpeedRec → List Keyframe
  | [] => []
  | s :: rest =>
    if |s.speed - lastSpeed| / max lastSpeed (1/10) > 1/5 then
      kfGet kfs prev.index :: kfGet kfs s.index :: extractGo kfs s.speed s rest
    else
      extractGo kfs lastSpeed s rest

/-- `extractKeySpeedPoints`.  The result always starts with `keyframes[0]`;
the last keyframe is force-appended when the tail of the result has a
different `point.time`; finally the list is deduplicated by the
`(time, x, y)` triple.  (The source's `else if (result.length === 0 ...)`
fallback is unreachable: `result` always holds `keyframes[0]`.) -/
def extractKeySpeedPoints (kfs : List Keyframe) (speeds : List SpeedRec) :
    List Keyframe :=
  match kfs with
  | [] => []
  | k0 :: _ =>
    let lastSpeed := match speeds with | [] => (0 : ℚ) | s :: _ => s.speed
    let body :=
      match speeds with
      | [] => ([] : List Keyframe)
      | s :: rest => extractGo kfs lastSpeed s rest
    let r := k0 :: body
    let lastKf := kfs.getLastD default
    let r2 :=
      if (r.getLastD default).point.time ≠ lastKf.point.time then r ++ [lastKf]
      else r
    dedupTXY r2

/-- The index sequence of a stride loop
`for (let i = step; i < bound; i += step)` with positive `step`: the
nonzero multiples of `step` below `bound`, in increasing order. -/
def strideIdx (step bound : Nat) : List Nat :=
  (List.range bound).filter (fun i => decide (i ≠ 0) && decide (i % step = 0))

/-- `normalizeKeyframeCount`: rebuild from the original keyframes when the
extracted list is too sparse and the original is detailed; stride-sample
the extracted list when it is too dense; pass through otherwise.  Both
rebuilds dedup by `point.time`. -/
def normalizeKeyframeCount (speedKeyframes originalKeyframes : List Keyframe) :
    List Keyframe :=
  if speedKeyframes.length < 5 ∧ originalKeyframes.length > 10 then
    let step := originalKeyframes.length / 8
    let mids :=
      if 0 < step then
        (strideIdx step (originalKeyframes.length - step)).map
          (kfGet originalKeyframes)
      else []
    dedupTime
      (kfGet originalKeyframes 0 ::
        (mids ++ [originalKeyframes.getLastD default]))
  else if speedKeyframes.length > 20 then
    let step := speedKeyframes.length / 20
    let mids :=
      if 0 < step then
        (strideIdx step (speedKeyframes.length - step)).map
          (kfGet speedKeyframes)
      else []
    dedupTime
      (kfGet speedKeyframes 0 ::
        (mids ++ [speedKeyframes.getLastD default]))
  else speedKeyframes

/-- `processKeyframes`.  The smoothing branch of the source reads the
identifier `originalKeyframes`, which is bound nowhere in the module: the
function's parameters are `keyframes` and `pointCount`, and the caller's
third argument is silently dropped.  In a strict-mode ES module this read
throws a `ReferenceError`, modelled by `Except.error ()`. -/
def processKeyframes (sq : ℚ → ℚ) (kfs : List Keyframe) (pointCount : Nat) :
    Except Unit (List Keyframe) :=
  if kfs.length = 0 then .ok []
  else
    let speeds := calculateSpeeds sq kfs
    let sk := extractKeySpeedPoints kfs speeds
    let sk2 := normalizeKeyframeCount sk kfs
    if 5 < pointCount ∧ 3 ≤ sk2.length then .error ()
    else .ok sk2

/-- `Math.max(0, Math.min(1, v))`. -/
def clamp01 (v : ℚ) : ℚ := max 0 (min 1 v)

/-- `calculateBezierParameters`. -/
def calculateBezierParameters (filteredPoints : List Point)
    (totalDuration : ℚ) : BezierParams :=
  if filteredPoints.length < 2 ∨ totalDuration ≤ 0 then ⟨1/4, 1/10, 1/4, 1⟩
  else
    let n := filteredPoints.length
    let oneThirdIndex := n / 3
    let twoThirdsIndex := n * 2 / 3
    let t0 := (ptGet filteredPoints 0).time
    let firstControlDuration :=
      ((ptGet filteredPoints oneThirdIndex).time - t0) / totalDuration
    let secondControlDuration :=
      ((ptGet filteredPoints twoThirdsIndex).time - t0) / totalDuration
    ⟨clamp01 firstControlDuration,
     clamp01 ((oneThirdIndex : ℚ) / ((n : ℚ) - 1)),
     clamp01 secondControlDuration,
     clamp01 ((twoThirdsIndex : ℚ) / ((n : ℚ) - 1))⟩

/-- `calculateAnimationData`, on an explicit raw point buffer.  Success
carries the stored `(motionKeyframes, bezierParams)` pair; the
insufficient-sample branches store `(null, null)`.  An exception escaping
`processKeyframes` propagates: the function has no try/catch. -/
def calculateAnimationData (sq : ℚ → ℚ) (points : List Point) :
    Except Unit (Option (List Keyframe) × Option BezierParams) :=
  if points.length < 3 then .ok (none, none)
  else
    let currentFilteredPoints := filterPoints points
    if currentFilteredPoints.length < 2 then .ok (none, none)
    else
      let ck := createKeyframes currentFilteredPoints
      match processKeyframes sq ck.1 currentFilteredPoints.length with
      | .error e => .error e
      | .ok mk =>
        .ok (some mk, some (calculateBezierParameters currentFilteredPoints ck.2))

/-- A drawing command of the emitted SVG path string: `M x y` or `L x y`
with the coordinates already rendered at 2-decimal precision. -/
inductive PathCmd where
  | move (x y : ℚ)
  | line (x y : ℚ)
  deriving DecidableEq, Repr

/-- `toFixed(2)`: round to 2 decimal places; on ties ECMAScript's `ToFixed`
picks the larger candidate, which is exactly `round` (round half up). -/
def round2 (v : ℚ) : ℚ := ((round (v * 100) : ℤ) : ℚ) / 100

/-- `generateSVGPath`: a move-to-the-origin command followed by one line
command per point after the first, with deltas relative to the override
point when given, else to the first point, each rendered via `toFixed(2)`. -/
def generateSVGPath (animationPoints : List Point)
    (firstPointOverride : Option Point) : List PathCmd :=
  if animationPoints.length < 2 then [.move 0 0]
  else
    let origin := firstPointOverride.getD (ptGet animationPoints 0)
    .move 0 0 ::
      (animationPoints.drop 1).map (fun p =>
        .line (round2 (p.x - origin.x)) (round2 (p.y - origin.y)))

/-- A concrete raw buffer: 11 points on a line, 2 apart in `x`, 10 apart in
time.  Every consecutive pair passes the distance filter, the speeds are
all equal, so the extractor keeps only the endpoints and the normalizer's
too-sparse branch rebuilds all 11 keyframes, which sends
`processKeyframes` into its smoothing branch. -/
def elevenLinePoints : List Point :=
  [⟨0, 0, 0⟩, ⟨10, 2, 0⟩, ⟨20, 4, 0⟩, ⟨30, 6, 0⟩, ⟨40, 8, 0⟩, ⟨50, 10, 0⟩,
   ⟨60, 12, 0⟩, ⟨70, 14, 0⟩, ⟨80, 16, 0⟩, ⟨90, 18, 0⟩, ⟨100, 20, 0⟩]

/-- The keyframes `createKeyframes` produces on `elevenLinePoints`:
total duration 100, progress `i/10` for the point at slot `i`. -/
def elevenLineKeyframes : List Keyframe :=
  [⟨0, ⟨0, 0, 0⟩⟩, ⟨1/10, ⟨10, 2, 0⟩⟩, ⟨1/5, ⟨20, 4, 0⟩⟩, ⟨3/10, ⟨30, 6, 0⟩⟩,
   ⟨2/5, ⟨40, 8, 0⟩⟩, ⟨1/2, ⟨50, 10, 0⟩⟩, ⟨3/5, ⟨60, 12, 0⟩⟩,
   ⟨7/10, ⟨70, 14, 0⟩⟩, ⟨4/5, ⟨80, 16, 0⟩⟩, ⟨9/10, ⟨90, 18, 0⟩⟩,
   ⟨1, ⟨100, 20, 0⟩⟩]

/-- A placeholder square-root function for concrete runs that exit before
any distance is computed; its values are never used there. -/
def sqrtZero : ℚ → ℚ := fun _ => 0

-- ---------------------------------------------------------------------
-- C2: scenario A
-- ---------------------------------------------------------------------

/-- Claim C2 (corrected), counterexample: on the raw input
`[{t:0,x:0,y:0},{t:100,x:1,y:1},{t:200,x:50,y:50}]` the distance filter
keeps only 2 of the 3 samples — the second sample is at distance
`√2 < 2` from the first, below the minimum-distance threshold, so it is
dropped — and the resulting keyframe progresses are `[0, 1]`, not
`[0, 1/2, 1]` as the claim states. -/
theorem c2_counterexample :
    filterPoints [⟨0, 0, 0⟩, ⟨100, 1, 1⟩, ⟨200, 50, 50⟩] =
      [⟨0, 0, 0⟩, ⟨200, 50, 50⟩] ∧
    (createKeyframes (filterPoints [⟨0, 0, 0⟩, ⟨100, 1, 1⟩, ⟨200, 50, 50⟩])).1.map
        Keyframe.progress = [0, 1] := by
  constructor <;>
    norm_num [filterPoints, filterIndices, filterLoopGo, sqDist, ptGet,
      createKeyframes]

/-- Claim C2 (amended): on the raw input
`[{t:0,x:0,y:0},{t:100,x:1,y:1},{t:200,x:50,y:50}]` the distance filter
keeps the first and last samples only (the middle sample is within the
minimum-distance threshold of the first: its distance is `√2 < 2`), and
the resulting keyframe progress values are exactly `[0, 1]`. -/
theorem c2_scenarioA_amended :
    (filterPoints [⟨0, 0, 0⟩, ⟨100, 1, 1⟩, ⟨200, 50, 50⟩]).length = 2 ∧
    filterPoints [⟨0, 0, 0⟩, ⟨100, 1, 1⟩, ⟨200, 50, 50⟩] =
      [⟨0, 0, 0⟩, ⟨200, 50, 50⟩] ∧
    (createKeyframes (filterPoints [⟨0, 0, 0⟩, ⟨100, 1, 1⟩, ⟨200, 50, 50⟩])).1.map
        Keyframe.progress = [0, 1] := by
  refine ⟨?_, ?_, ?_⟩ <;>
    norm_num [filterPoints, filterIndices, filterLoopGo, sqDist, ptGet,
      createKeyframes]

-- ---------------------------------------------------------------------
-- C4 and C10: distance-filter invariants
-- ---------------------------------------------------------------------

/-- Reading slot `length - 1` of a nonempty list is reading its last
element. -/
theorem ptGet_length_sub_one (pts : List Point) (h : pts ≠ []) :
    ptGet pts (pts.length - 1) = pts.getLastD default := by
  induction pts with
  | nil => exact absurd rfl h
  | cons a t ih =>
    cases t with
    | nil => rfl
    | cons b t' =>
      have hlen : (a :: b :: t').length - 1 = ((b :: t').length - 1) + 1 := by
        simp [List.length_cons]
      rw [ptGet, hlen, List.getD_cons_succ, ← ptGet, ih (by simp),
        List.getLastD_cons, List.getLastD_cons, List.getLastD_cons]

/-- The last element of a mapped nonempty index list is the image of the
last index. -/
theorem map_cons_getLastD (f : Nat → Point) (x : Nat) (l : List Nat) :
    ((x :: l).map f).getLastD default = f ((x :: l).getLastD 0) := by
  rw [List.map_cons, List.getLastD_cons, List.getLastD_cons, List.getLastD_map]

/-- Along the filter loop, every kept point is at squared distance at least
4 from the previously kept point: the kept indices, read back through
`ptGet` and prefixed with the point kept so far, form a `≥ 4` chain. -/
theorem filterLoopGo_chain (pts : List Point) (rest : List Point) :
    ∀ (i : Nat) (lastPt : Point), pts.drop i = rest →
      List.Chain' (fun a b => 4 ≤ sqDist b a)
        (lastPt :: (filterLoopGo lastPt i rest).map (ptGet pts)) := by
  induction rest with
  | nil => intro i lastPt _; simp [filterLoopGo]
  | cons p rest' ih =>
    intro i lastPt hdrop
    have hi : i < pts.length := by
      by_contra hle
      have hnil : pts.drop i = [] :=
        List.drop_eq_nil_iff.mpr (Nat.le_of_not_lt hle)
      rw [hdrop] at hnil
      exact absurd hnil (by simp)
    have hcons : pts[i] :: pts.drop (i + 1) = p :: rest' := by
      rw [List.getElem_cons_drop pts i hi, hdrop]
    have hp : pts[i] = p := by injection hcons
    have hdrop' : pts.drop (i + 1) = rest' := by injection hcons
    have hpget : ptGet pts i = p := by
      rw [ptGet, List.getD_eq_getElem pts default hi, hp]
    simp only [filterLoopGo]
    by_cases h4 : 4 ≤ sqDist p lastPt
    · rw [if_pos h4, List.map_cons, hpget, List.chain'_cons]
      exact ⟨h4, ih (i + 1) p hdrop'⟩
    · rw [if_neg h4]
      exact ih (i + 1) lastPt hdrop'

/-- Claim C4: the distance filter keeps the endpoints.  For every nonempty
raw sample list, the filtered output starts with the first raw sample and
ends with the last raw sample (the latter force-appended when the
tolerance check dropped it). -/
theorem c4_filter_keeps_endpoints (pts : List Point) (h : pts ≠ []) :
    (filterPoints pts).headD default = pts.headD default ∧
    (filterPoints pts).getLastD default = pts.getLastD default := by
  match pts, h with
  | p0 :: rest, _ =>
    have hlast := ptGet_length_sub_one (p0 :: rest) (by simp)
    constructor
    · simp only [filterPoints, filterIndices]
      split
      · rw [List.cons_append, List.map_cons, List.headD_cons]
        rfl
      · rw [List.map_cons, List.headD_cons]
        rfl
    · simp only [filterPoints, filterIndices]
      split
      · simp only [List.map_append, List.map_cons, List.map_nil,
          ← List.cons_append]
        rw [List.getLastD_concat, hlast]
      · rename_i hcond
        push_neg at hcond
        rw [map_cons_getLastD, hcond, hlast]

/-- Witness for C4 at a concrete two-sample input. -/
theorem c4_filter_keeps_endpoints_witness :
    ([⟨0, 0, 0⟩, ⟨3, 10, 0⟩] : List Point) ≠ [] ∧
    ((filterPoints [⟨0, 0, 0⟩, ⟨3, 10, 0⟩]).headD default =
        ([⟨0, 0, 0⟩, ⟨3, 10, 0⟩] : List Point).headD default ∧
      (filterPoints [⟨0, 0, 0⟩, ⟨3, 10, 0⟩]).getLastD default =
        ([⟨0, 0, 0⟩, ⟨3, 10, 0⟩] : List Point).getLastD default) :=
  ⟨by simp, c4_filter_keeps_endpoints [⟨0, 0, 0⟩, ⟨3, 10, 0⟩] (by simp)⟩

/-- Claim C10: in the filtered output every consecutive pair except
possibly the final one is at squared distance at least 4 (that is,
Euclidean distance at least the minimum-distance threshold 2); and the
final pair can be arbitrarily close — on the concrete input of two
coincident samples the filter returns both, at distance 0, because the
final sample is force-appended by slot identity. -/
theorem c10_consecutive_distance :
    (∀ (pts : List Point) (j : Nat), j + 2 < (filterPoints pts).length →
        4 ≤ sqDist ((filterPoints pts).getD (j + 1) default)
          ((filterPoints pts).getD j default)) ∧
    filterPoints [⟨0, 0, 0⟩, ⟨5, 0, 0⟩] = [⟨0, 0, 0⟩, ⟨5, 0, 0⟩] ∧
    sqDist ⟨5, 0, 0⟩ ⟨0, 0, 0⟩ = 0 := by
  refine ⟨?_, ?_, ?_⟩
  · intro pts j hj
    match pts with
    | [] => simp [filterPoints, filterIndices] at hj
    | p0 :: rest =>
      have hchain :
          List.Chain' (fun a b => 4 ≤ sqDist b a)
            ((0 :: filterLoopGo p0 1 rest).map (ptGet (p0 :: rest))) := by
        have := filterLoopGo_chain (p0 :: rest) rest 1 p0 (by simp)
        rw [List.map_cons]
        have h0 : ptGet (p0 :: rest) 0 = p0 := rfl
        rw [h0]
        exact this
      set pre := (0 :: filterLoopGo p0 1 rest).map (ptGet (p0 :: rest)) with hpre
      by_cases happ :
        ((0 :: filterLoopGo p0 1 rest).getLastD 0) ≠ (p0 :: rest).length - 1
      · have hres : filterPoints (p0 :: rest) =
            pre ++ [ptGet (p0 :: rest) ((p0 :: rest).length - 1)] := by
          rw [filterPoints, filterIndices]
          simp only [if_pos happ, List.map_append, List.map_cons, List.map_nil,
            hpre]
        rw [hres] at hj ⊢
        have hjlen : j + 1 < pre.length := by
          simp only [List.length_append, List.length_cons, List.length_nil] at hj
          omega
        rw [List.getD_append pre _ default (j + 1) hjlen,
          List.getD_append pre _ default j (by omega)]
        have hget := (List.chain'_iff_get.mp hchain) j (by omega)
        rw [List.getD_eq_getElem pre default hjlen,
          List.getD_eq_getElem pre default (show j < pre.length by omega)]
        simpa [List.get_eq_getElem] using hget
      · have hres : filterPoints (p0 :: rest) = pre := by
          rw [filterPoints, filterIndices]
          simp only [if_neg happ, hpre]
        rw [hres] at hj ⊢
        have hget := (List.chain'_iff_get.mp hchain) j (by omega)
        rw [List.getD_eq_getElem pre default (show j + 1 < pre.length by omega),
          List.getD_eq_getElem pre default (show j < pre.length by omega)]
        simpa [List.get_eq_getElem] using hget
  · norm_num [filterPoints, filterIndices, filterLoopGo, sqDist, ptGet]
  · norm_num [sqDist]

/-- Witness for C10's universally quantified part at a concrete input with
three well-spaced samples. -/
theorem c10_consecutive_distance_witness :
    0 + 2 < (filterPoints [⟨0, 0, 0⟩, ⟨1, 3, 0⟩, ⟨2, 6, 0⟩]).length ∧
    4 ≤ sqDist ((filterPoints [⟨0, 0, 0⟩, ⟨1, 3, 0⟩, ⟨2, 6, 0⟩]).getD 1 default)
      ((filterPoints [⟨0, 0, 0⟩, ⟨1, 3, 0⟩, ⟨2, 6, 0⟩]).getD 0 default) := by
  have hlen : 0 + 2 < (filterPoints [⟨0, 0, 0⟩, ⟨1, 3, 0⟩, ⟨2, 6, 0⟩]).length := by
    norm_num [filterPoints, filterIndices, filterLoopGo, sqDist, ptGet]
  exact ⟨hlen,
    c10_consecutive_distance.1 [⟨0, 0, 0⟩, ⟨1, 3, 0⟩, ⟨2, 6, 0⟩] 0 hlen⟩

-- ---------------------------------------------------------------------
-- C5: keyframe progress endpoints
-- ---------------------------------------------------------------------

/-- Mapping commutes with taking the last element of a nonempty list. -/
theorem map_getLastD_of_ne_nil {α β : Type} [Inhabited α] [Inhabited β]
    (f : α → β) (l : List α) (h : l ≠ []) :
    (l.map f).getLastD default = f (l.getLastD default) := by
  cases l with
  | nil => exact absurd rfl h
  | cons a t =>
    rw [List.map_cons, List.getLastD_cons, List.getLastD_cons,
      List.getLastD_map]

/-- Claim C5: for at least 2 filtered samples, with positive total duration
the first keyframe has progress exactly 0 and the last exactly 1; with
zero total duration every keyframe has progress 0 (no division happens). -/
theorem c5_keyframe_progress_endpoints (fp : List Point)
    (h2 : 2 ≤ fp.length) :
    (0 < (createKeyframes fp).2 →
      (((createKeyframes fp).1.headD default).progress = 0 ∧
        ((createKeyframes fp).1.getLastD default).progress = 1)) ∧
    ((createKeyframes fp).2 = 0 →
      ∀ kf ∈ (createKeyframes fp).1, kf.progress = 0) := by
  match fp, h2 with
  | p0 :: p1 :: rest, _ =>
    have hlen : ¬ ((p0 :: p1 :: rest) : List Point).length < 2 := by
      simp [List.length_cons]
    have hck : createKeyframes (p0 :: p1 :: rest) =
        ((p0 :: p1 :: rest).map (fun p =>
          ⟨if 0 < ((p0 :: p1 :: rest).getLastD default).time - p0.time then
              (p.time - p0.time) /
                (((p0 :: p1 :: rest).getLastD default).time - p0.time)
            else 0, p⟩),
         ((p0 :: p1 :: rest).getLastD default).time - p0.time) := by
      rw [createKeyframes, if_neg hlen]
      rfl
    rw [hck]
    constructor
    · intro hD
      constructor
      · rw [List.map_cons, List.headD_cons]
        simp only [if_pos hD, sub_self, zero_div]
      · rw [map_getLastD_of_ne_nil _ _ (by simp)]
        simp only [if_pos hD]
        exact div_self (ne_of_gt hD)
    · intro hD0 kf hkf
      obtain ⟨p, _, rfl⟩ := List.mem_map.mp hkf
      have hD : ((p0 :: p1 :: rest).getLastD default).time - p0.time = 0 := hD0
      show (if 0 < ((p0 :: p1 :: rest).getLastD default).time - p0.time then
          (p.time - p0.time) /
            (((p0 :: p1 :: rest).getLastD default).time - p0.time)
        else 0) = 0
      rw [hD]
      norm_num

/-- Witness for C5 at a concrete two-sample input with positive duration. -/
theorem c5_keyframe_progress_endpoints_witness :
    2 ≤ ([⟨0, 0, 0⟩, ⟨10, 5, 5⟩] : List Point).length ∧
    0 < (createKeyframes [⟨0, 0, 0⟩, ⟨10, 5, 5⟩]).2 ∧
    (((createKeyframes [⟨0, 0, 0⟩, ⟨10, 5, 5⟩]).1.headD default).progress = 0 ∧
      ((createKeyframes [⟨0, 0, 0⟩, ⟨10, 5, 5⟩]).1.getLastD default).progress
        = 1) := by
  have h2 : 2 ≤ ([⟨0, 0, 0⟩, ⟨10, 5, 5⟩] : List Point).length := by simp
  have hD : 0 < (createKeyframes [⟨0, 0, 0⟩, ⟨10, 5, 5⟩]).2 := by
    norm_num [createKeyframes, ptGet]
  exact ⟨h2, hD, (c5_keyframe_progress_endpoints _ h2).1 hD⟩

-- ---------------------------------------------------------------------
-- C3: two raw points
-- ---------------------------------------------------------------------

/-- Claim C3 (corrected), counterexample: on the concrete 2-point raw
buffer the pipeline returns `keyframes = null` AND `bezier = null` — the
Bezier estimator is not invoked at all, contradicting the claim that a
valid clamped curve is still computed. -/
theorem c3_counterexample :
    calculateAnimationData sqrtZero [⟨0, 0, 0⟩, ⟨100, 10, 10⟩] =
      .ok (none, none) := by
  rfl

/-- Claim C3 (amended): for every raw input with exactly 2 points the
pipeline fails soft without throwing, returning `keyframes = null` and
`bezier = null` (the fewer-than-3-raw-samples branch nulls both outputs;
the Bezier estimator itself would return a clamped curve but is never
reached). -/
theorem c3_two_points_amended (sq : ℚ → ℚ) (p q : Point) :
    calculateAnimationData sq [p, q] = .ok (none, none) := by
  rfl

-- ---------------------------------------------------------------------
-- C6: Bezier estimator
-- ---------------------------------------------------------------------

/-- `clamp01` lands in `[0, 1]`. -/
theorem clamp01_mem (v : ℚ) : 0 ≤ clamp01 v ∧ clamp01 v ≤ 1 := by
  refine ⟨le_max_left 0 _, max_le (by norm_num) (min_le_left 1 v)⟩

/-- Claim C6: the Bezier estimator always returns the four coordinates in
`[0, 1]`, and on fewer than 2 samples or non-positive duration it returns
exactly the default curve `(0.25, 0.1, 0.25, 1.0)`. -/
theorem c6_bezier_clamped (fp : List Point) (D : ℚ) :
    (0 ≤ (calculateBezierParameters fp D).x1 ∧
      (calculateBezierParameters fp D).x1 ≤ 1 ∧
      0 ≤ (calculateBezierParameters fp D).y1 ∧
      (calculateBezierParameters fp D).y1 ≤ 1 ∧
      0 ≤ (calculateBezierParameters fp D).x2 ∧
      (calculateBezierParameters fp D).x2 ≤ 1 ∧
      0 ≤ (calculateBezierParameters fp D).y2 ∧
      (calculateBezierParameters fp D).y2 ≤ 1) ∧
    ((fp.length < 2 ∨ D ≤ 0) →
      calculateBezierParameters fp D = ⟨1/4, 1/10, 1/4, 1⟩) := by
  by_cases hc : fp.length < 2 ∨ D ≤ 0
  · rw [calculateBezierParameters, if_pos hc]
    refine ⟨?_, fun _ => rfl⟩
    norm_num
  · rw [calculateBezierParameters, if_neg hc]
    refine ⟨?_, fun h => absurd h hc⟩
    refine ⟨(clamp01_mem _).1, (clamp01_mem _).2, (clamp01_mem _).1,
      (clamp01_mem _).2, (clamp01_mem _).1, (clamp01_mem _).2,
      (clamp01_mem _).1, (clamp01_mem _).2⟩

/-- Witness for C6's degenerate branch at a concrete input. -/
theorem c6_bezier_clamped_witness :
    (([] : List Point).length < 2 ∨ (0 : ℚ) ≤ 0) ∧
    calculateBezierParameters [] 0 = ⟨1/4, 1/10, 1/4, 1⟩ :=
  ⟨Or.inl (by simp), (c6_bezier_clamped [] 0).2 (Or.inl (by simp))⟩

-- ---------------------------------------------------------------------
-- C7: path serializer round trip
-- ---------------------------------------------------------------------

/-- 2-decimal rounding moves a value by at most `1/200` (= 0.005). -/
theorem round2_close (v : ℚ) : |round2 v - v| ≤ 1/200 := by
  have h := abs_sub_round (v * 100)
  rw [abs_sub_comm] at h
  have heq : round2 v - v = (((round (v * 100) : ℤ) : ℚ) - v * 100) / 100 := by
    rw [round2]
    ring
  rw [heq, abs_div, abs_of_pos (show (0 : ℚ) < 100 by norm_num)]
  rw [div_le_div_iff₀ (by norm_num) (by norm_num)]
  nlinarith [h]

/-- Claim C7: for at least 2 samples the serializer emits a move-to-(0,0)
command followed by exactly one line command per subsequent sample whose
deltas are the sample's coordinates minus the origin's, each rounded to 2
decimals; adding the origin back to an emitted delta reproduces the
original coordinate to within `1/200`. -/
theorem c7_path_roundtrip (pts : List Point) (ov : Option Point)
    (h2 : 2 ≤ pts.length) :
    generateSVGPath pts ov =
      .move 0 0 ::
        (pts.drop 1).map (fun p =>
          .line (round2 (p.x - (ov.getD (ptGet pts 0)).x))
            (round2 (p.y - (ov.getD (ptGet pts 0)).y))) ∧
    ∀ p ∈ pts.drop 1,
      |((ov.getD (ptGet pts 0)).x + round2 (p.x - (ov.getD (ptGet pts 0)).x)) -
          p.x| ≤ 1/200 ∧
      |((ov.getD (ptGet pts 0)).y + round2 (p.y - (ov.getD (ptGet pts 0)).y)) -
          p.y| ≤ 1/200 := by
  constructor
  · rw [generateSVGPath, if_neg (by omega)]
  · intro p _
    constructor
    · have hx := round2_close (p.x - (ov.getD (ptGet pts 0)).x)
      have heq : ((ov.getD (ptGet pts 0)).x +
          round2 (p.x - (ov.getD (ptGet pts 0)).x)) - p.x =
          round2 (p.x - (ov.getD (ptGet pts 0)).x) -
            (p.x - (ov.getD (ptGet pts 0)).x) := by ring
      rw [heq]
      exact hx
    · have hy := round2_close (p.y - (ov.getD (ptGet pts 0)).y)
      have heq : ((ov.getD (ptGet pts 0)).y +
          round2 (p.y - (ov.getD (ptGet pts 0)).y)) - p.y =
          round2 (p.y - (ov.getD (ptGet pts 0)).y) -
            (p.y - (ov.getD (ptGet pts 0)).y) := by ring
      rw [heq]
      exact hy

/-- Witness for C7 at a concrete 2-sample input with no override. -/
theorem c7_path_roundtrip_witness :
    2 ≤ ([⟨0, 1, 2⟩, ⟨5, 4, 8⟩] : List Point).length ∧
    (generateSVGPath [⟨0, 1, 2⟩, ⟨5, 4, 8⟩] none =
      .move 0 0 ::
        (([⟨0, 1, 2⟩, ⟨5, 4, 8⟩] : List Point).drop 1).map (fun p =>
          .line
            (round2 (p.x - ((none : Option Point).getD
              (ptGet [⟨0, 1, 2⟩, ⟨5, 4, 8⟩] 0)).x))
            (round2 (p.y - ((none : Option Point).getD
              (ptGet [⟨0, 1, 2⟩, ⟨5, 4, 8⟩] 0)).y))) ∧
      ∀ p ∈ ([⟨0, 1, 2⟩, ⟨5, 4, 8⟩] : List Point).drop 1,
        |(((none : Option Point).getD (ptGet [⟨0, 1, 2⟩, ⟨5, 4, 8⟩] 0)).x +
            round2 (p.x - ((none : Option Point).getD
              (ptGet [⟨0, 1, 2⟩, ⟨5, 4, 8⟩] 0)).x)) - p.x| ≤ 1/200 ∧
        |(((none : Option Point).getD (ptGet [⟨0, 1, 2⟩, ⟨5, 4, 8⟩] 0)).y +
            round2 (p.y - ((none : Option Point).getD
              (ptGet [⟨0, 1, 2⟩, ⟨5, 4, 8⟩] 0)).y)) - p.y| ≤ 1/200) :=
  ⟨by simp, c7_path_roundtrip [⟨0, 1, 2⟩, ⟨5, 4, 8⟩] none (by simp)⟩

-- ---------------------------------------------------------------------
-- C9: count normalizer fabricates nothing
-- ---------------------------------------------------------------------

/-- Elements surviving the by-time dedup come from the input list. -/
theorem dedupTimeGo_subset (l : List Keyframe) :
    ∀ (seen : List Keyframe) (k : Keyframe), k ∈ dedupTimeGo seen l → k ∈ l := by
  induction l with
  | nil => intro seen k hk; simp [dedupTimeGo] at hk
  | cons a rest ih =>
    intro seen k hk
    rw [dedupTimeGo] at hk
    by_cases hc : seen.any (fun s => s.point.time == a.point.time)
    · rw [if_pos hc] at hk
      exact List.mem_cons_of_mem a (ih _ k hk)
    · rw [if_neg hc] at hk
      rcases List.mem_cons.mp hk with h | h
      · exact h ▸ List.mem_cons_self a rest
      · exact List.mem_cons_of_mem a (ih _ k h)

/-- An in-bounds indexed read is a member of the list. -/
theorem kfGet_mem (l : List Keyframe) (i : Nat) (h : i < l.length) :
    kfGet l i ∈ l := by
  rw [kfGet, List.getD_eq_getElem l default h]
  exact List.getElem_mem h

/-- The last element of a nonempty list is a member. -/
theorem kf_getLastD_mem (l : List Keyframe) (h : l ≠ []) :
    l.getLastD default ∈ l := by
  cases l with
  | nil => exact absurd rfl h
  | cons a t =>
    rw [List.getLastD_cons]
    exact List.getLastD_mem_cons t a

/-- Stride indices stay below the bound. -/
theorem strideIdx_lt (step bound i : Nat) (h : i ∈ strideIdx step bound) :
    i < bound := by
  rw [strideIdx] at h
  exact List.mem_range.mp (List.mem_filter.mp h).1

/-- Claim C9: the count normalizer fabricates no keyframe.  In the
too-sparse rebuild branch every output element comes from the original
list, in the too-dense branch every output element comes from the
extracted list, and otherwise the extracted list is returned unchanged. -/
theorem c9_normalizer_no_fabrication (sk ok : List Keyframe) :
    (sk.length < 5 ∧ ok.length > 10 →
      ∀ k ∈ normalizeKeyframeCount sk ok, k ∈ ok) ∧
    (¬(sk.length < 5 ∧ ok.length > 10) → sk.length > 20 →
      ∀ k ∈ normalizeKeyframeCount sk ok, k ∈ sk) ∧
    (¬(sk.length < 5 ∧ ok.length > 10) → ¬(sk.length > 20) →
      normalizeKeyframeCount sk ok = sk) := by
  refine ⟨?_, ?_, ?_⟩
  · intro hc k hk
    rw [normalizeKeyframeCount, if_pos hc] at hk
    have hok : ok ≠ [] := by
      intro h
      rw [h] at hc
      simp at hc
    have hk' := dedupTimeGo_subset _ _ _ hk
    rcases List.mem_cons.mp hk' with h | h
    · exact h ▸ kfGet_mem ok 0 (by omega)
    · rcases List.mem_append.mp h with h | h
      · by_cases hstep : 0 < ok.length / 8
        · rw [if_pos hstep] at h
          obtain ⟨i, hi, rfl⟩ := List.mem_map.mp h
          have := strideIdx_lt _ _ _ hi
          exact kfGet_mem ok i (by omega)
        · rw [if_neg hstep] at h
          simp at h
      · rcases List.mem_singleton.mp h with rfl
        exact kf_getLastD_mem ok hok
  · intro hc1 hc2 k hk
    rw [normalizeKeyframeCount, if_neg hc1, if_pos hc2] at hk
    have hsk : sk ≠ [] := by
      intro h
      rw [h] at hc2
      simp at hc2
    have hk' := dedupTimeGo_subset _ _ _ hk
    rcases List.mem_cons.mp hk' with h | h
    · exact h ▸ kfGet_mem sk 0 (by omega)
    · rcases List.mem_append.mp h with h | h
      · by_cases hstep : 0 < sk.length / 20
        · rw [if_pos hstep] at h
          obtain ⟨i, hi, rfl⟩ := List.mem_map.mp h
          have := strideIdx_lt _ _ _ hi
          exact kfGet_mem sk i (by omega)
        · rw [if_neg hstep] at h
          simp at h
      · rcases List.mem_singleton.mp h with rfl
        exact kf_getLastD_mem sk hsk
  · intro hc1 hc2
    rw [normalizeKeyframeCount, if_neg hc1, if_neg hc2]

/-- Witness for C9's pass-through branch at a concrete input. -/
theorem c9_normalizer_no_fabrication_witness :
    ¬(([⟨0, ⟨0, 0, 0⟩⟩, ⟨1, ⟨4, 4, 0⟩⟩, ⟨1, ⟨8, 8, 0⟩⟩, ⟨1, ⟨12, 12, 0⟩⟩,
        ⟨1, ⟨16, 16, 0⟩⟩] : List Keyframe).length < 5 ∧
      ([] : List Keyframe).length > 10) ∧
    ¬(([⟨0, ⟨0, 0, 0⟩⟩, ⟨1, ⟨4, 4, 0⟩⟩, ⟨1, ⟨8, 8, 0⟩⟩, ⟨1, ⟨12, 12, 0⟩⟩,
        ⟨1, ⟨16, 16, 0⟩⟩] : List Keyframe).length > 20) ∧
    normalizeKeyframeCount
        [⟨0, ⟨0, 0, 0⟩⟩, ⟨1, ⟨4, 4, 0⟩⟩, ⟨1, ⟨8, 8, 0⟩⟩, ⟨1, ⟨12, 12, 0⟩⟩,
          ⟨1, ⟨16, 16, 0⟩⟩] [] =
      [⟨0, ⟨0, 0, 0⟩⟩, ⟨1, ⟨4, 4, 0⟩⟩, ⟨1, ⟨8, 8, 0⟩⟩, ⟨1, ⟨12, 12, 0⟩⟩,
        ⟨1, ⟨16, 16, 0⟩⟩] :=
  ⟨by simp, by simp,
    (c9_normalizer_no_fabrication _ _).2.2 (by simp) (by simp)⟩

-- ---------------------------------------------------------------------
-- C8: significant-change extractor
-- ---------------------------------------------------------------------

/-- Claim C8 (corrected), counterexample: the extractor deduplicates by the
full `(time, x, y)` triple, not by timestamp alone.  On this concrete
input the output keeps two entries with the same timestamp 0 (their `x`
coordinates differ), so the claim's no-duplicate-timestamp property fails;
its progress trace `[0, 3/4, 1/2]` is not non-decreasing either. -/
theorem c8_counterexample :
    (extractKeySpeedPoints
        [⟨0, ⟨0, 0, 0⟩⟩, ⟨3/4, ⟨0, 5, 0⟩⟩, ⟨1/2, ⟨10, 20, 0⟩⟩]
        [⟨1, 0, 3/4⟩, ⟨2, 10, 1/2⟩]).map
        (fun k => (k.point.time, k.progress)) =
      [(0, 0), (0, 3/4), (10, 1/2)] := by
  norm_num [extractKeySpeedPoints, extractGo, dedupTXY, dedupTXYGo,
    samePointTXY, kfGet, max_def, abs_of_nonneg]

/-- The by-triple dedup returns a sublist of its input. -/
theorem dedupTXYGo_sublist (l : List Keyframe) :
    ∀ seen : List Keyframe, List.Sublist (dedupTXYGo seen l) l := by
  induction l with
  | nil => intro seen; simp [dedupTXYGo]
  | cons a rest ih =>
    intro seen
    rw [dedupTXYGo]
    by_cases hc : seen.any (fun s => samePointTXY s a)
    · rw [if_pos hc]
      exact List.Sublist.cons a (ih (a :: seen))
    · rw [if_neg hc]
      exact List.Sublist.cons₂ a (ih (a :: seen))

/-- Nothing the by-triple dedup returns matches an already-seen element. -/
theorem dedupTXYGo_not_seen (l : List Keyframe) :
    ∀ (seen : List Keyframe) (k : Keyframe), k ∈ dedupTXYGo seen l →
      ∀ s ∈ seen, samePointTXY s k = false := by
  induction l with
  | nil => intro seen k hk; simp [dedupTXYGo] at hk
  | cons a rest ih =>
    intro seen k hk s hs
    rw [dedupTXYGo] at hk
    by_cases hc : seen.any (fun s => samePointTXY s a)
    · rw [if_pos hc] at hk
      exact ih (a :: seen) k hk s (List.mem_cons_of_mem a hs)
    · rw [if_neg hc] at hk
      rcases List.mem_cons.mp hk with rfl | h
      · have hall : ∀ x ∈ seen, ¬ (samePointTXY x k = true) := by
          simpa [List.any_eq_true] using hc
        simpa using hall s hs
      · exact ih (a :: seen) k h s (List.mem_cons_of_mem a hs)

/-- The by-triple dedup output is pairwise distinct on `(time, x, y)`. -/
theorem dedupTXYGo_pairwise (l : List Keyframe) :
    ∀ seen : List Keyframe,
      List.Pairwise (fun a b => samePointTXY a b = false)
        (dedupTXYGo seen l) := by
  induction l with
  | nil => intro seen; simp [dedupTXYGo]
  | cons a rest ih =>
    intro seen
    rw [dedupTXYGo]
    by_cases hc : seen.any (fun s => samePointTXY s a)
    · rw [if_pos hc]
      exact ih (a :: seen)
    · rw [if_neg hc]
      rw [List.pairwise_cons]
      refine ⟨fun b hb => ?_, ih (a :: seen)⟩
      exact dedupTXYGo_not_seen rest (a :: seen) b hb a (List.mem_cons_self a seen)

/-- Reading slot `length - 1` of a nonempty keyframe list is reading its
last element. -/
theorem kfGet_length_sub_one (l : List Keyframe) (h : l ≠ []) :
    kfGet l (l.length - 1) = l.getLastD default := by
  induction l with
  | nil => exact absurd rfl h
  | cons a t ih =>
    cases t with
    | nil => rfl
    | cons b t' =>
      have hlen : (a :: b :: t').length - 1 = ((b :: t').length - 1) + 1 := by
        simp [List.length_cons]
      rw [kfGet, hlen, List.getD_cons_succ, ← kfGet, ih (by simp),
        List.getLastD_cons, List.getLastD_cons, List.getLastD_cons]

/-- Along the extractor loop, when the keyframes are sorted by progress and
the speed-record indices increase within bounds, the emitted keyframes are
sorted by progress and each one is read from an index at or past the
current record's. -/
theorem extractGo_sorted (kfs : List Keyframe)
    (hmono : ∀ i j : Nat, i ≤ j → j < kfs.length →
      (kfGet kfs i).progress ≤ (kfGet kfs j).progress) :
    ∀ (rest : List SpeedRec) (prev : SpeedRec) (lastSpeed : ℚ),
      List.Chain' (fun a b : SpeedRec => a.index < b.index) (prev :: rest) →
      (∀ s ∈ prev :: rest, s.index < kfs.length) →
      List.Pairwise (fun a b : Keyframe => a.progress ≤ b.progress)
          (extractGo kfs lastSpeed prev rest) ∧
        ∀ k ∈ extractGo kfs lastSpeed prev rest,
          ∃ i : Nat, prev.index ≤ i ∧ i < kfs.length ∧ k = kfGet kfs i := by
  intro rest
  induction rest with
  | nil =>
    intro prev lastSpeed _ _
    exact ⟨by simp [extractGo], by simp [extractGo]⟩
  | cons s rest' ih =>
    intro prev lastSpeed hchain hbound
    have hps : prev.index < s.index := (List.chain'_cons.mp hchain).1
    have hchain' : List.Chain' (fun a b : SpeedRec => a.index < b.index)
        (s :: rest') := (List.chain'_cons.mp hchain).2
    have hbound' : ∀ t ∈ s :: rest', t.index < kfs.length := fun t ht =>
      hbound t (List.mem_cons_of_mem prev ht)
    have hslen : s.index < kfs.length := hbound' s (List.mem_cons_self s rest')
    rw [extractGo]
    by_cases htr : |s.speed - lastSpeed| / max lastSpeed (1/10) > 1/5
    · rw [if_pos htr]
      obtain ⟨ihp, ihm⟩ := ih s s.speed hchain' hbound'
      constructor
      · rw [List.pairwise_cons]
        constructor
        · intro b hb
          rcases List.mem_cons.mp hb with rfl | hb'
          · exact hmono prev.index s.index (le_of_lt hps) hslen
          · obtain ⟨i, his, hilen, rfl⟩ := ihm b hb'
            exact hmono prev.index i (le_trans (le_of_lt hps) his) hilen
        · rw [List.pairwise_cons]
          refine ⟨fun b hb => ?_, ihp⟩
          obtain ⟨i, his, hilen, rfl⟩ := ihm b hb
          exact hmono s.index i his hilen
      · intro k hk
        rcases List.mem_cons.mp hk with rfl | hk'
        · exact ⟨prev.index, le_refl _,
            hbound prev (List.mem_cons_self prev (s :: rest')), rfl⟩
        rcases List.mem_cons.mp hk' with rfl | hk''
        · exact ⟨s.index, le_of_lt hps, hslen, rfl⟩
        · obtain ⟨i, his, hilen, rfl⟩ := ihm k hk''
          exact ⟨i, le_trans (le_of_lt hps) his, hilen, rfl⟩
    · rw [if_neg htr]
      obtain ⟨ihp, ihm⟩ := ih s lastSpeed hchain' hbound'
      refine ⟨ihp, fun k hk => ?_⟩
      obtain ⟨i, his, hilen, rfl⟩ := ihm k hk
      exact ⟨i, le_trans (le_of_lt hps) his, hilen, rfl⟩

/-- Claim C8 (amended): the extractor deduplicates by exact
`(time, x, y)` equality, so its output never contains two entries with the
same full triple (though two entries may share a timestamp when their
coordinates differ); and whenever the keyframe list is non-decreasing in
progress and the speed records carry strictly increasing in-bounds indices
— the shape the Speed Profiler produces — the output is non-decreasing in
progress. -/
theorem c8_extractor_amended (kfs : List Keyframe) (speeds : List SpeedRec) :
    List.Pairwise (fun a b : Keyframe => samePointTXY a b = false)
        (extractKeySpeedPoints kfs speeds) ∧
      ((∀ i j : Nat, i ≤ j → j < kfs.length →
          (kfGet kfs i).progress ≤ (kfGet kfs j).progress) →
        List.Chain' (fun a b : SpeedRec => a.index < b.index) speeds →
        (∀ s ∈ speeds, s.index < kfs.length) →
        List.Pairwise (fun a b : Keyframe => a.progress ≤ b.progress)
          (extractKeySpeedPoints kfs speeds)) := by
  constructor
  · cases kfs with
    | nil => simp [extractKeySpeedPoints]
    | cons k0 ktail =>
      cases speeds with
      | nil =>
        have hrepr : extractKeySpeedPoints (k0 :: ktail) [] =
            dedupTXY
              (if (([k0] : List Keyframe).getLastD default).point.time ≠
                  ((k0 :: ktail).getLastD default).point.time
                then [k0] ++ [(k0 :: ktail).getLastD default] else [k0]) := rfl
        rw [hrepr]
        exact dedupTXYGo_pairwise _ []
      | cons s0 srest =>
        have hrepr : extractKeySpeedPoints (k0 :: ktail) (s0 :: srest) =
            dedupTXY
              (if ((k0 :: extractGo (k0 :: ktail) s0.speed s0 srest).getLastD
                    default).point.time ≠
                  ((k0 :: ktail).getLastD default).point.time
                then (k0 :: extractGo (k0 :: ktail) s0.speed s0 srest) ++
                  [(k0 :: ktail).getLastD default]
                else k0 :: extractGo (k0 :: ktail) s0.speed s0 srest) := rfl
        rw [hrepr]
        exact dedupTXYGo_pairwise _ []
  · intro hmono hidx hbound
    cases kfs with
    | nil => simp [extractKeySpeedPoints]
    | cons k0 ktail =>
      have hk0 : k0 = kfGet (k0 :: ktail) 0 := rfl
      have hlastk :
          kfGet (k0 :: ktail) ((k0 :: ktail).length - 1) =
            (k0 :: ktail).getLastD default :=
        kfGet_length_sub_one (k0 :: ktail) (by simp)
      cases speeds with
      | nil =>
        have hrepr : extractKeySpeedPoints (k0 :: ktail) [] =
            dedupTXY
              (if (([k0] : List Keyframe).getLastD default).point.time ≠
                  ((k0 :: ktail).getLastD default).point.time
                then [k0] ++ [(k0 :: ktail).getLastD default] else [k0]) := rfl
        rw [hrepr]
        refine List.Pairwise.sublist (dedupTXYGo_sublist _ []) ?_
        split
        · rw [List.cons_append, List.nil_append, List.pairwise_cons]
          refine ⟨fun b hb => ?_, by simp⟩
          rcases List.mem_singleton.mp hb with rfl
          rw [← hlastk]
          nth_rewrite 1 [hk0]
          exact hmono 0 ((k0 :: ktail).length - 1) (Nat.zero_le _) (by simp)
        · simp
      | cons s0 srest =>
        obtain ⟨hpair, hmem⟩ :=
          extractGo_sorted (k0 :: ktail) hmono srest s0 s0.speed hidx hbound
        have hrepr : extractKeySpeedPoints (k0 :: ktail) (s0 :: srest) =
            dedupTXY
              (if ((k0 :: extractGo (k0 :: ktail) s0.speed s0 srest).getLastD
                    default).point.time ≠
                  ((k0 :: ktail).getLastD default).point.time
                then (k0 :: extractGo (k0 :: ktail) s0.speed s0 srest) ++
                  [(k0 :: ktail).getLastD default]
                else k0 :: extractGo (k0 :: ktail) s0.speed s0 srest) := rfl
        have hr : List.Pairwise (fun a b : Keyframe => a.progress ≤ b.progress)
            (k0 :: extractGo (k0 :: ktail) s0.speed s0 srest) := by
          rw [List.pairwise_cons]
          refine ⟨fun b hb => ?_, hpair⟩
          obtain ⟨i, _, hilen, rfl⟩ := hmem b hb
          nth_rewrite 1 [hk0]
          exact hmono 0 i (Nat.zero_le i) hilen
        have hmem' : ∀ a ∈ k0 :: extractGo (k0 :: ktail) s0.speed s0 srest,
            ∃ i : Nat, i < (k0 :: ktail).length ∧ a = kfGet (k0 :: ktail) i := by
          intro a ha
          rcases List.mem_cons.mp ha with rfl | ha'
          · exact ⟨0, by simp, hk0⟩
          · obtain ⟨i, _, hilen, rfl⟩ := hmem a ha'
            exact ⟨i, hilen, rfl⟩
        rw [hrepr]
        refine List.Pairwise.sublist (dedupTXYGo_sublist _ []) ?_
        split
        · rw [List.pairwise_append]
          refine ⟨hr, by simp, fun a ha b hb => ?_⟩
          rcases List.mem_singleton.mp hb with rfl
          obtain ⟨i, hilen, rfl⟩ := hmem' a ha
          rw [← hlastk]
          exact hmono i ((k0 :: ktail).length - 1) (by omega) (by simp)
        · exact hr

/-- Witness for C8's amended statement at a concrete profiler-shaped
input. -/
theorem c8_extractor_amended_witness :
    (∀ i j : Nat, i ≤ j →
      j < ([⟨0, ⟨0, 0, 0⟩⟩, ⟨0, ⟨10, 4, 0⟩⟩, ⟨0, ⟨20, 8, 0⟩⟩] :
        List Keyframe).length →
      (kfGet [⟨0, ⟨0, 0, 0⟩⟩, ⟨0, ⟨10, 4, 0⟩⟩, ⟨0, ⟨20, 8, 0⟩⟩] i).progress ≤
        (kfGet [⟨0, ⟨0, 0, 0⟩⟩, ⟨0, ⟨10, 4, 0⟩⟩, ⟨0, ⟨20, 8, 0⟩⟩] j).progress) ∧
    List.Chain' (fun a b : SpeedRec => a.index < b.index)
      [⟨1, 1/2, 0⟩, ⟨2, 2, 0⟩] ∧
    (∀ s ∈ ([⟨1, 1/2, 0⟩, ⟨2, 2, 0⟩] : List SpeedRec),
      s.index < ([⟨0, ⟨0, 0, 0⟩⟩, ⟨0, ⟨10, 4, 0⟩⟩, ⟨0, ⟨20, 8, 0⟩⟩] :
        List Keyframe).length) ∧
    (List.Pairwise (fun a b : Keyframe => samePointTXY a b = false)
        (extractKeySpeedPoints [⟨0, ⟨0, 0, 0⟩⟩, ⟨0, ⟨10, 4, 0⟩⟩, ⟨0, ⟨20, 8, 0⟩⟩]
          [⟨1, 1/2, 0⟩, ⟨2, 2, 0⟩]) ∧
      List.Pairwise (fun a b : Keyframe => a.progress ≤ b.progress)
        (extractKeySpeedPoints [⟨0, ⟨0, 0, 0⟩⟩, ⟨0, ⟨10, 4, 0⟩⟩, ⟨0, ⟨20, 8, 0⟩⟩]
          [⟨1, 1/2, 0⟩, ⟨2, 2, 0⟩])) := by
  have hall : ∀ i : Nat,
      (kfGet [⟨0, ⟨0, 0, 0⟩⟩, ⟨0, ⟨10, 4, 0⟩⟩, ⟨0, ⟨20, 8, 0⟩⟩] i).progress
        = 0 := by
    intro i
    match i with
    | 0 => rfl
    | 1 => rfl
    | 2 => rfl
    | n + 3 => rfl
  have hmono : ∀ i j : Nat, i ≤ j →
      j < ([⟨0, ⟨0, 0, 0⟩⟩, ⟨0, ⟨10, 4, 0⟩⟩, ⟨0, ⟨20, 8, 0⟩⟩] :
        List Keyframe).length →
      (kfGet [⟨0, ⟨0, 0, 0⟩⟩, ⟨0, ⟨10, 4, 0⟩⟩, ⟨0, ⟨20, 8, 0⟩⟩] i).progress ≤
        (kfGet [⟨0, ⟨0, 0, 0⟩⟩, ⟨0, ⟨10, 4, 0⟩⟩, ⟨0, ⟨20, 8, 0⟩⟩] j).progress :=
    fun i j _ _ => by rw [hall i, hall j]
  have hidx : List.Chain' (fun a b : SpeedRec => a.index < b.index)
      [⟨1, 1/2, 0⟩, ⟨2, 2, 0⟩] := by
    rw [List.chain'_cons]
    exact ⟨by norm_num, List.chain'_singleton _⟩
  have hbound : ∀ s ∈ ([⟨1, 1/2, 0⟩, ⟨2, 2, 0⟩] : List SpeedRec),
      s.index < ([⟨0, ⟨0, 0, 0⟩⟩, ⟨0, ⟨10, 4, 0⟩⟩, ⟨0, ⟨20, 8, 0⟩⟩] :
        List Keyframe).length := by
    intro s hs
    rcases List.mem_cons.mp hs with rfl | hs'
    · norm_num
    rcases List.mem_singleton.mp hs' with rfl
    norm_num
  exact ⟨hmono, hidx, hbound, (c8_extractor_amended _ _).1,
    (c8_extractor_amended _ _).2 hmono hidx hbound⟩

-- ---------------------------------------------------------------------
-- C1: the pipeline can throw (ReferenceError in the smoothing branch)
-- ---------------------------------------------------------------------

/-- Claim C1 (code bug): on the concrete 11-point raw buffer
`elevenLinePoints` the full pipeline reaches the smoothing branch
(filtered count 11 > 5, normalized keyframe count 11 ≥ 3) and there
evaluates the unbound identifier `originalKeyframes`, throwing a
`ReferenceError` — for every square-root function, i.e. regardless of what
`Math.sqrt` returns.  This contradicts the specification's guarantee that
nothing in the core throws. -/
theorem c1_pipeline_throws (sq : ℚ → ℚ) :
    calculateAnimationData sq elevenLinePoints = .error () := by
  have hfilter : filterPoints elevenLinePoints = elevenLinePoints := by
    norm_num [filterPoints, filterIndices, filterLoopGo, sqDist, ptGet,
      elevenLinePoints]
  have hck : createKeyframes elevenLinePoints = (elevenLineKeyframes, 100) := by
    norm_num [createKeyframes, ptGet, elevenLinePoints, elevenLineKeyframes]
  have hextract :
      extractKeySpeedPoints elevenLineKeyframes
        (calculateSpeeds sq elevenLineKeyframes) =
      [⟨0, ⟨0, 0, 0⟩⟩, ⟨1, ⟨100, 20, 0⟩⟩] := by
    norm_num [calculateSpeeds, speedsGo, getDistance, sqDist,
      extractKeySpeedPoints, extractGo, dedupTXY, dedupTXYGo, samePointTXY,
      kfGet, elevenLineKeyframes]
  have hstride : strideIdx 1 10 = [1, 2, 3, 4, 5, 6, 7, 8, 9] := by decide
  have hnorm :
      normalizeKeyframeCount [⟨0, ⟨0, 0, 0⟩⟩, ⟨1, ⟨100, 20, 0⟩⟩]
        elevenLineKeyframes = elevenLineKeyframes := by
    have hlen11 : elevenLineKeyframes.length = 11 := rfl
    rw [normalizeKeyframeCount, if_pos ⟨by norm_num, by rw [hlen11]; norm_num⟩]
    rw [hlen11]
    norm_num
    rw [hstride]
    norm_num [kfGet, dedupTime, dedupTimeGo, elevenLineKeyframes]
  have hproc : processKeyframes sq elevenLineKeyframes 11 = .error () := by
    simp only [processKeyframes]
    rw [if_neg (by norm_num [elevenLineKeyframes])]
    rw [hextract, hnorm]
    rw [if_pos ⟨by norm_num, by rw [show elevenLineKeyframes.length = 11 from rfl]; norm_num⟩]
  have h11 : elevenLinePoints.length = 11 := rfl
  simp only [calculateAnimationData]
  rw [hfilter, h11]
  rw [if_neg (by norm_num), if_neg (by norm_num)]
  rw [hck]
  rw [show ((elevenLineKeyframes, (100 : ℚ)).1) = elevenLineKeyframes from rfl]
  rw [hproc]
